import Mathlib

/-!
# Access-log reporter (`weed/util/log_access/log_access.go`)

A shallow embedding of `pidToName` and `SendLog`, together with the protobuf
wire codec that `SendLog` calls through `proto.Marshal`.

Go strings and byte slices are lists of bytes (`List Nat`, every element below
256).  Unsigned machine integers are `Nat`, the `int32` enum value is `Int`.
Every call that leaves the function (file read, log line, marshal, dial, write,
close) is recorded, in program order, as an `Event`; `SendLog` returns the
list of events of one call.
-/

namespace LogAccess

/-- A Go string or byte slice: its bytes in order. -/
abbrev GoString := List Nat

/-- The bytes of an ASCII literal of the source. -/
def ascii (s : String) : GoString := s.toList.map Char.toNat

/-- A Go `error` value, by its message. -/
structure GoError where
  msg : String
deriving DecidableEq, Repr

deriving instance DecidableEq for Except

/-! ## `fmt.Sprintf` with the verb `%d` -/

/-- Digit loop of the integer formatter: the least significant digit is
produced first and put in front of the digits produced so far. -/
def fmtDecimalAux : Nat → Nat → List Nat → List Nat
  | 0, _, acc => acc
  | fuel + 1, n, acc =>
    if n < 10 then (48 + n) :: acc
    else fmtDecimalAux fuel (n / 10) ((48 + n % 10) :: acc)

/-- Decimal text of an unsigned integer as `%d` prints it (20 digits cover
every 64-bit value). -/
def fmtDecimal (n : Nat) : GoString := fmtDecimalAux 20 n []

/-! ## The message `AccessInfo` and its wire format -/

/-- The record `al.AccessInfo` built by `SendLog`. -/
structure AccessInfo where
  AccessType : Int
  FilePath : GoString
  FileSize : Nat
  ProcessName : GoString
  ProcessId : Nat
deriving DecidableEq, Repr

/-- Modelled from the spec: the field numbers of the message schema
`{accessType: enum, filePath: string, fileSize: uint64, processName: string,
processId: uint32}`; the generated package `weed/pb/log_pb` that fixes them is
not among the sources, so they are a parameter. -/
structure Schema where
  accessType : Nat
  filePath : Nat
  fileSize : Nat
  processName : Nat
  processId : Nat
deriving DecidableEq, Repr

/-- Field numbers are valid protobuf field numbers and grow in declaration
order, so that emitting fields in declaration order is emitting them in
field-number order, as `proto.Marshal` does. -/
def Schema.WellFormed (s : Schema) : Prop :=
  1 ≤ s.accessType ∧ s.accessType < s.filePath ∧ s.filePath < s.fileSize ∧
  s.fileSize < s.processName ∧ s.processName < s.processId ∧ s.processId < 2 ^ 29

instance (s : Schema) : Decidable s.WellFormed := by
  unfold Schema.WellFormed; infer_instance

/-- The numbering 1 to 5 in declaration order. -/
def Schema.standard : Schema := ⟨1, 2, 3, 4, 5⟩

/-- Base-128 varint bytes of `v`, least significant group first, at most
`fuel` bytes. -/
def appendVarintAux : Nat → Nat → List Nat
  | 0, _ => []
  | fuel + 1, v =>
    if v < 128 then [v] else (v % 128 + 128) :: appendVarintAux fuel (v / 128)

/-- Mirror of `protowire.AppendVarint` on a `uint64`: at most ten bytes. -/
def appendVarint (v : Nat) : List Nat := appendVarintAux 10 (v % 2 ^ 64)

/-- Reading of a varint: `fuel` is the number of bytes that may still be read;
the tenth byte may only be 0 or 1. -/
def consumeVarintAux : Nat → List Nat → Option (Nat × List Nat)
  | 0, _ => none
  | _ + 1, [] => none
  | fuel + 1, b :: bs =>
    if b < 128 then
      if fuel = 0 ∧ 1 < b then none else some (b, bs)
    else
      match consumeVarintAux fuel bs with
      | none => none
      | some (v, rest) => some (b % 128 + 128 * v, rest)

/-- Mirror of `protowire.ConsumeVarint`. -/
def consumeVarint (bs : List Nat) : Option (Nat × List Nat) := consumeVarintAux 10 bs

/-- Mirror of `protowire.ConsumeBytes`: a varint length, then that many bytes. -/
def consumeBytes (bs : List Nat) : Option (List Nat × List Nat) :=
  match consumeVarint bs with
  | none => none
  | some (n, rest) => if rest.length < n then none else some (rest.take n, rest.drop n)

/-- Continuation byte of a UTF-8 sequence. -/
def isCont (b : Nat) : Bool := 0x80 ≤ b && b ≤ 0xBF

/-- Validity check `utf8.ValidString`, with `fuel` at least the number of
bytes: no overlong form, no surrogate, nothing above U+10FFFF. -/
def utf8ValidAux : Nat → List Nat → Bool
  | _, [] => true
  | 0, _ :: _ => false
  | fuel + 1, b0 :: rest =>
    if b0 < 0x80 then utf8ValidAux fuel rest
    else if 0xC2 ≤ b0 ∧ b0 ≤ 0xDF then
      match rest with
      | b1 :: rest1 => isCont b1 && utf8ValidAux fuel rest1
      | _ => false
    else if 0xE0 ≤ b0 ∧ b0 ≤ 0xEF then
      match rest with
      | b1 :: b2 :: rest2 =>
        (if b0 = 0xE0 then 0xA0 ≤ b1 && b1 ≤ 0xBF
         else if b0 = 0xED then 0x80 ≤ b1 && b1 ≤ 0x9F
         else isCont b1) && isCont b2 && utf8ValidAux fuel rest2
      | _ => false
    else if 0xF0 ≤ b0 ∧ b0 ≤ 0xF4 then
      match rest with
      | b1 :: b2 :: b3 :: rest3 =>
        (if b0 = 0xF0 then 0x90 ≤ b1 && b1 ≤ 0xBF
         else if b0 = 0xF4 then 0x80 ≤ b1 && b1 ≤ 0x8F
         else isCont b1) && isCont b2 && isCont b3 && utf8ValidAux fuel rest3
      | _ => false
    else false

/-- Mirror of `utf8.ValidString`. -/
def utf8Valid (s : GoString) : Bool := utf8ValidAux s.length s

/-- Wire tag of a field: number and wire type packed in one varint. -/
def appendTag (num wireType : Nat) : List Nat := appendVarint (num * 8 + wireType)

/-- A varint field of proto3 with implicit presence: omitted when zero. -/
def appendVarintField (num v : Nat) : List Nat :=
  if v = 0 then [] else appendTag num 0 ++ appendVarint v

/-- A string field of proto3 with implicit presence: omitted when empty,
otherwise tag, length, bytes. -/
def appendStringField (num : Nat) (s : GoString) : List Nat :=
  if s = [] then [] else appendTag num 2 ++ appendVarint s.length ++ s

/-- The `int32` enum value as the 64-bit two's complement that goes on the
wire. -/
def enumToWire (e : Int) : Nat := (e % 2 ^ 64).toNat

/-- Conversion `int32(v)` of a decoded varint. -/
def wireToInt32 (v : Nat) : Int :=
  if v % 2 ^ 32 < 2 ^ 31 then ((v % 2 ^ 32 : Nat) : Int) else ((v % 2 ^ 32 : Nat) : Int) - 2 ^ 32

/-- The error of the codec for a string field that is not UTF-8. -/
def errInvalidUTF8 : GoError := ⟨"proto: field contains invalid UTF-8"⟩

/-- Modelled from the spec: `proto.Marshal` on an `AccessInfo` of the proto3
schema above (the generated codec of `weed/pb/log_pb` is not among the
sources).  It fails exactly when a string field is not valid UTF-8; otherwise
the fields that differ from their zero value are written in field order. -/
def Marshal (s : Schema) (m : AccessInfo) : Except GoError (List Nat) :=
  if utf8Valid m.FilePath = false then .error errInvalidUTF8
  else if utf8Valid m.ProcessName = false then .error errInvalidUTF8
  else .ok (appendVarintField s.accessType (enumToWire m.AccessType)
    ++ appendStringField s.filePath m.FilePath
    ++ appendVarintField s.fileSize m.FileSize
    ++ appendStringField s.processName m.ProcessName
    ++ appendVarintField s.processId m.ProcessId)

/-- The zero message every decoding starts from. -/
def AccessInfo.zero : AccessInfo := ⟨0, [], 0, [], 0⟩

/-- Skipping of a field the schema does not know, by wire type (groups are
rejected). -/
def skipField (wireType : Nat) (bs : List Nat) : Option (List Nat) :=
  if wireType = 0 then (consumeVarint bs).map Prod.snd
  else if wireType = 1 then (if bs.length < 8 then none else some (bs.drop 8))
  else if wireType = 2 then (consumeBytes bs).map Prod.snd
  else if wireType = 5 then (if bs.length < 4 then none else some (bs.drop 4))
  else none

/-- One field read from the wire into the message. -/
def unmarshalField (s : Schema) (bs : List Nat) (m : AccessInfo) :
    Option (AccessInfo × List Nat) :=
  match consumeVarint bs with
  | none => none
  | some (tag, rest) =>
    let num := tag / 8
    let wireType := tag % 8
    if num = 0 then none
    else if num = s.accessType ∧ wireType = 0 then
      match consumeVarint rest with
      | none => none
      | some (v, rest1) => some ({ m with AccessType := wireToInt32 v }, rest1)
    else if num = s.filePath ∧ wireType = 2 then
      match consumeBytes rest with
      | none => none
      | some (v, rest1) =>
        if utf8Valid v then some ({ m with FilePath := v }, rest1) else none
    else if num = s.fileSize ∧ wireType = 0 then
      match consumeVarint rest with
      | none => none
      | some (v, rest1) => some ({ m with FileSize := v }, rest1)
    else if num = s.processName ∧ wireType = 2 then
      match consumeBytes rest with
      | none => none
      | some (v, rest1) =>
        if utf8Valid v then some ({ m with ProcessName := v }, rest1) else none
    else if num = s.processId ∧ wireType = 0 then
      match consumeVarint rest with
      | none => none
      | some (v, rest1) => some ({ m with ProcessId := v % 2 ^ 32 }, rest1)
    else
      match skipField wireType rest with
      | none => none
      | some rest1 => some (m, rest1)

/-- Field loop of the decoder; every round consumes at least one byte, so
`fuel` equal to the input length is enough. -/
def unmarshalLoop (s : Schema) : Nat → List Nat → AccessInfo → Option AccessInfo
  | _, [], m => some m
  | 0, _ :: _, _ => none
  | fuel + 1, b :: bs, m =>
    match unmarshalField s (b :: bs) m with
    | none => none
    | some (m1, rest) => unmarshalLoop s fuel rest m1

/-- Modelled from the spec: `proto.Unmarshal` into a fresh `AccessInfo` of the
same schema. -/
def Unmarshal (s : Schema) (bs : List Nat) : Option AccessInfo :=
  unmarshalLoop s bs.length bs AccessInfo.zero

/-! ## The environment and the trace of a call -/

/-- Result `(n, err)` of `conn.Write`. -/
structure WriteResult where
  n : Nat
  err : Option GoError
deriving DecidableEq, Repr

/-- An open connection: what a write of the given bytes returns. -/
structure Conn where
  write : List Nat → WriteResult

/-- What lies outside the function: the message schema of `log_pb`, the file
system behind `os.ReadFile` and the network behind `net.Dial`. -/
structure Env where
  schema : Schema
  readFile : GoString → Except GoError GoString
  dial : GoString → GoString → Except GoError Conn

/-- The warnings of `SendLog`, one constructor per `glog.Warningf` call, with
the arguments of the format. -/
inductive LogMsg where
  | nameError (err : GoError)
  | accessLog (server : GoString) (accessType : Int) (filePath : GoString)
      (fileSize : Nat) (processName : GoString)
  | marshalError (err : GoError)
  | connectError (server : GoString) (err : GoError)
  | sendError (err : GoError)
deriving DecidableEq, Repr

/-- The calls of `SendLog` that leave the function. -/
inductive Event where
  | readFile (path : GoString)
  | warning (msg : LogMsg)
  | marshal (info : AccessInfo)
  | dial (network address : GoString)
  | write (data : List Nat)
  | close
deriving DecidableEq, Repr

/-- The path `fmt.Sprintf("/proc/%d/comm", pid)`. -/
def procPath (pid : Nat) : GoString := ascii "/proc/" ++ fmtDecimal pid ++ ascii "/comm"

/-- Embedding of `pidToName`: the content of `/proc/<pid>/comm` converted to a
string, or the error of the read. -/
def pidToName (env : Env) (pid : Nat) : Except GoError GoString :=
  match env.readFile (procPath pid) with
  | .error err => .error err
  | .ok comm => .ok comm

/-- The process name `SendLog` works with: the resolved one, or
`fmt.Sprintf("PID %d", processId)` when resolution failed. -/
def processNameOf (env : Env) (processId : Nat) : GoString :=
  match pidToName env processId with
  | .error _ => ascii "PID " ++ fmtDecimal processId
  | .ok name => name

/-- Events of the name resolution: the read, and the warning when it failed. -/
def resolveEvents (env : Env) (processId : Nat) : List Event :=
  match pidToName env processId with
  | .error err => [.readFile (procPath processId), .warning (.nameError err)]
  | .ok _ => [.readFile (procPath processId)]

/-- Embedding of `SendLog`: the events of one call, in order.  The deferred
`conn.Close()` runs when the function returns, hence last. -/
def SendLog (env : Env) (server : GoString) (accessType : Int) (filePath : GoString)
    (fileSize : Nat) (processId : Nat) : List Event :=
  let processName := processNameOf env processId
  let head := resolveEvents env processId ++
    [.warning (.accessLog server accessType filePath fileSize processName)]
  if server = [] then head
  else
    let info : AccessInfo :=
      { AccessType := accessType, FilePath := filePath, FileSize := fileSize,
        ProcessName := processName, ProcessId := processId }
    match Marshal env.schema info with
    | .error err => head ++ [.marshal info, .warning (.marshalError err)]
    | .ok out =>
      match env.dial (ascii "tcp") server with
      | .error err =>
        head ++ [.marshal info, .dial (ascii "tcp") server,
          .warning (.connectError server err)]
      | .ok conn =>
        match (conn.write out).err with
        | some err =>
          head ++ [.marshal info, .dial (ascii "tcp") server, .write out,
            .warning (.sendError err), .close]
        | none =>
          head ++ [.marshal info, .dial (ascii "tcp") server, .write out, .close]

/-! ## Observations on a trace -/

/-- The access log line. -/
def isAccessLog : Event → Bool
  | .warning (.accessLog _ _ _ _ _) => true
  | _ => false

/-- A call of `proto.Marshal`. -/
def isMarshal : Event → Bool
  | .marshal _ => true
  | _ => false

/-- A connection attempt. -/
def isDial : Event → Bool
  | .dial _ _ => true
  | _ => false

/-- A write on the connection. -/
def isWrite : Event → Bool
  | .write _ => true
  | _ => false

/-- A close of the connection. -/
def isClose : Event → Bool
  | .close => true
  | _ => false

/-- Any network action: dial, write or close. -/
def isNet (e : Event) : Bool := isDial e || isWrite e || isClose e

/-- A warning of the serialization, connection or write stage. -/
def isStageWarning : Event → Bool
  | .warning (.marshalError _) => true
  | .warning (.connectError _ _) => true
  | .warning (.sendError _) => true
  | _ => false

/-- Value of a string of decimal digits, most significant digit first. -/
def decimalValue (ds : List Nat) : Nat := ds.foldl (fun a d => a * 10 + (d - 48)) 0

/-- White space of `strings.TrimSpace` within ASCII: tab, line feed, vertical
tab, form feed, carriage return, space. -/
def isSpace (b : Nat) : Bool := b = 9 || b = 10 || b = 11 || b = 12 || b = 13 || b = 32

/-- Trimming as the specification words it: leading and trailing white space
removed. -/
def trimSpace (s : GoString) : GoString :=
  ((s.dropWhile isSpace).reverse.dropWhile isSpace).reverse

/-! ## Sample environments -/

/-- A connection on which every write is complete. -/
def Conn.good : Conn := ⟨fun b => ⟨b.length, none⟩⟩

/-- A connection on which every write is cut short after `k` bytes. -/
def Conn.broken (k : Nat) : Conn := ⟨fun _ => ⟨k, some ⟨"write: broken pipe"⟩⟩⟩

/-- An environment with the standard numbering whose file read and dial have
fixed outcomes. -/
def Env.fixed (comm : Except GoError GoString) (conn : Except GoError Conn) : Env :=
  ⟨Schema.standard, fun _ => comm, fun _ _ => conn⟩

/-- The process exists and the collector accepts. -/
def Env.reachable : Env := Env.fixed (.ok (ascii "bash\n")) (.ok Conn.good)

/-- The process is gone and the collector refuses. -/
def Env.refused : Env :=
  Env.fixed (.error ⟨"open: no such file or directory"⟩) (.error ⟨"dial tcp: connection refused"⟩)

/-- The process is gone, the collector accepts and then drops the connection. -/
def Env.dropping : Env :=
  Env.fixed (.error ⟨"open: no such file or directory"⟩) (.ok (Conn.broken 3))

/-! ## Lemmas on the trace -/

theorem resolveEvents_cases (env : Env) (pid : Nat) :
    resolveEvents env pid = [.readFile (procPath pid)] ∨
    ∃ err, resolveEvents env pid = [.readFile (procPath pid), .warning (.nameError err)] := by
  unfold resolveEvents
  cases pidToName env pid with
  | error err => exact Or.inr ⟨err, rfl⟩
  | ok name => exact Or.inl rfl

theorem resolveEvents_quiet (env : Env) (pid : Nat) :
    ∀ e ∈ resolveEvents env pid, isAccessLog e = false ∧ isMarshal e = false ∧
      isDial e = false ∧ isWrite e = false ∧ isClose e = false ∧ isStageWarning e = false := by
  intro e he
  rcases resolveEvents_cases env pid with h | ⟨err, h⟩ <;> rw [h] at he <;>
    simp at he <;> rcases he with rfl | rfl <;> simp [isAccessLog, isMarshal, isDial, isWrite,
      isClose, isStageWarning]

theorem resolveEvents_filter (env : Env) (pid : Nat) (p : Event → Bool)
    (hp : ∀ e ∈ resolveEvents env pid, p e = false) :
    (resolveEvents env pid).filter p = [] := by
  rw [List.filter_eq_nil_iff]
  intro e he
  simp [hp e he]

/-- The part of every trace up to and including the access log line. -/
theorem SendLog_head (env : Env) (server : GoString) (accessType : Int) (filePath : GoString)
    (fileSize processId : Nat) :
    ∃ tail, SendLog env server accessType filePath fileSize processId =
      resolveEvents env processId ++
        .warning (.accessLog server accessType filePath fileSize (processNameOf env processId))
          :: tail ∧
      ∀ e ∈ tail, isAccessLog e = false := by
  unfold SendLog
  by_cases hs : server = []
  · exact ⟨[], by simp [hs], by simp⟩
  · simp only [hs, if_false]
    split
    · exact ⟨_, List.append_assoc _ _ _, by simp [isAccessLog]⟩
    · split
      · exact ⟨_, List.append_assoc _ _ _, by simp [isAccessLog]⟩
      · split
        · exact ⟨_, List.append_assoc _ _ _, by simp [isAccessLog]⟩
        · exact ⟨_, List.append_assoc _ _ _, by simp [isAccessLog]⟩

/-! ## The decimal text of `%d` -/

theorem fmtDecimalAux_acc (fuel : Nat) : ∀ (n : Nat) (acc : List Nat),
    fmtDecimalAux fuel n acc = fmtDecimalAux fuel n [] ++ acc := by
  induction fuel with
  | zero => intro n acc; simp [fmtDecimalAux]
  | succ fuel ih =>
    intro n acc
    unfold fmtDecimalAux
    by_cases h : n < 10
    · simp [h]
    · simp only [h, if_false]
      rw [ih (n / 10) ((48 + n % 10) :: acc), ih (n / 10) [48 + n % 10]]
      simp

theorem decimalValue_snoc (ds : List Nat) (d : Nat) :
    decimalValue (ds ++ [d]) = decimalValue ds * 10 + (d - 48) := by
  simp [decimalValue, List.foldl_append]

/-- With enough fuel the digit loop yields a non-empty string of ASCII digits
whose value is the number and which starts with `0` only for the number 0. -/
theorem fmtDecimalAux_spec (fuel : Nat) : ∀ n : Nat, n < 10 ^ (fuel + 1) →
    fmtDecimalAux (fuel + 1) n [] ≠ [] ∧
    (∀ d ∈ fmtDecimalAux (fuel + 1) n [], 48 ≤ d ∧ d ≤ 57) ∧
    decimalValue (fmtDecimalAux (fuel + 1) n []) = n ∧
    ((fmtDecimalAux (fuel + 1) n []).head? = some 48 → n = 0) := by
  induction fuel with
  | zero =>
    intro n hn
    have h : n < 10 := by simpa using hn
    simp only [fmtDecimalAux, h, if_true]
    refine ⟨by simp, ?_, ?_, ?_⟩
    · intro d hd
      simp only [List.mem_singleton] at hd
      omega
    · simp [decimalValue]
    · intro hh
      simp only [List.head?_cons, Option.some.injEq] at hh
      omega
  | succ fuel ih =>
    intro n hn
    rw [fmtDecimalAux]
    by_cases h : n < 10
    · simp only [h, if_true]
      refine ⟨by simp, ?_, ?_, ?_⟩
      · intro d hd
        simp only [List.mem_singleton] at hd
        omega
      · simp [decimalValue]
      · intro hh
        simp only [List.head?_cons, Option.some.injEq] at hh
        omega
    · simp only [h, if_false]
      have hq : n / 10 < 10 ^ (fuel + 1) := by
        rw [Nat.div_lt_iff_lt_mul (by norm_num)]
        calc n < 10 ^ (fuel + 1 + 1) := hn
          _ = 10 ^ (fuel + 1) * 10 := by rw [pow_succ]
      obtain ⟨hne, hdig, hval, hhead⟩ := ih (n / 10) hq
      rw [fmtDecimalAux_acc]
      refine ⟨by simp, ?_, ?_, ?_⟩
      · intro d hd
        simp only [List.mem_append, List.mem_singleton] at hd
        rcases hd with hd | rfl
        · exact hdig d hd
        · omega
      · rw [decimalValue_snoc, hval]
        omega
      · intro hh
        rw [List.head?_append_of_ne_nil _ hne] at hh
        have := hhead hh
        omega

/-- The text `%d` prints for an unsigned value of at most 64 bits: ASCII
digits only, the value read back is the number, no leading zero. -/
theorem fmtDecimal_spec (n : Nat) (hn : n < 2 ^ 64) :
    fmtDecimal n ≠ [] ∧ (∀ d ∈ fmtDecimal n, 48 ≤ d ∧ d ≤ 57) ∧
    decimalValue (fmtDecimal n) = n ∧ ((fmtDecimal n).head? = some 48 → fmtDecimal n = [48]) := by
  have hlt : n < 10 ^ (19 + 1) := lt_of_lt_of_le hn (by norm_num)
  obtain ⟨h1, h2, h3, h4⟩ := fmtDecimalAux_spec 19 n hlt
  refine ⟨h1, h2, h3, ?_⟩
  intro hh
  have h0 : n = 0 := h4 hh
  subst h0
  rfl

/-! ## The wire codec: decoding undoes encoding -/

theorem appendVarintAux_ne_nil (fuel v : Nat) : appendVarintAux (fuel + 1) v ≠ [] := by
  unfold appendVarintAux
  split <;> simp

theorem appendVarint_ne_nil (v : Nat) : appendVarint v ≠ [] :=
  appendVarintAux_ne_nil 9 _

theorem consumeVarintAux_append (fuel : Nat) : ∀ (v : Nat) (rest : List Nat),
    v < 2 ^ (7 * fuel + 1) →
    consumeVarintAux (fuel + 1) (appendVarintAux (fuel + 1) v ++ rest) = some (v, rest) := by
  induction fuel with
  | zero =>
    intro v rest hv
    have h2 : v < 2 := by simpa using hv
    have h128 : v < 128 := by omega
    have h1 : ¬ 1 < v := by omega
    simp [appendVarintAux, consumeVarintAux, h128, h1]
  | succ fuel ih =>
    intro v rest hv
    rw [appendVarintAux]
    by_cases h128 : v < 128
    · simp [consumeVarintAux, h128]
    · have hq : v / 128 < 2 ^ (7 * fuel + 1) := by
        rw [Nat.div_lt_iff_lt_mul (by norm_num)]
        calc v < 2 ^ (7 * (fuel + 1) + 1) := hv
          _ = 2 ^ (7 * fuel + 1) * 128 := by
            rw [show 7 * (fuel + 1) + 1 = (7 * fuel + 1) + 7 by ring, pow_add]; norm_num
      have hb : ¬ (v % 128 + 128 < 128) := by omega
      simp only [h128, if_false, List.cons_append, consumeVarintAux, hb, ih (v / 128) rest hq]
      congr 2
      omega

/-- Reading a varint that was just written gives the value back and leaves
the rest of the input. -/
theorem consumeVarint_appendVarint (v : Nat) (rest : List Nat) (hv : v < 2 ^ 64) :
    consumeVarint (appendVarint v ++ rest) = some (v, rest) := by
  unfold consumeVarint appendVarint
  rw [Nat.mod_eq_of_lt hv]
  exact consumeVarintAux_append 9 v rest (by simpa using hv)

/-- Reading a length-delimited value that was just written gives the bytes
back and leaves the rest of the input. -/
theorem consumeBytes_append (b rest : List Nat) (hb : b.length < 2 ^ 64) :
    consumeBytes (appendVarint b.length ++ (b ++ rest)) = some (b, rest) := by
  unfold consumeBytes
  rw [consumeVarint_appendVarint _ _ hb]
  simp

theorem tag_num (num wireType : Nat) (hw : wireType < 8) : (num * 8 + wireType) / 8 = num := by
  omega

theorem tag_wireType (num wireType : Nat) (hw : wireType < 8) :
    (num * 8 + wireType) % 8 = wireType := by
  omega

theorem consumeVarint_tag (num wireType : Nat) (rest : List Nat) (hn : num < 2 ^ 29)
    (hw : wireType < 8) :
    consumeVarint (appendTag num wireType ++ rest) = some (num * 8 + wireType, rest) := by
  unfold appendTag
  exact consumeVarint_appendVarint _ _ (by omega)

theorem enumToWire_lt (e : Int) : enumToWire e < 2 ^ 64 := by
  unfold enumToWire
  omega

theorem enumToWire_eq_zero (e : Int) (hlo : -2 ^ 31 ≤ e) (hhi : e < 2 ^ 31) :
    enumToWire e = 0 ↔ e = 0 := by
  unfold enumToWire
  omega

theorem wireToInt32_enumToWire (e : Int) (hlo : -2 ^ 31 ≤ e) (hhi : e < 2 ^ 31) :
    wireToInt32 (enumToWire e) = e := by
  unfold wireToInt32 enumToWire
  split <;> omega

theorem unmarshalLoop_nil (s : Schema) (fuel : Nat) (m : AccessInfo) :
    unmarshalLoop s fuel [] m = some m := by
  cases fuel <;> rfl

/-- One round of the field loop over a non-empty chunk that decodes to one
field. -/
theorem unmarshalLoop_chunk (s : Schema) (chunk rest : List Nat) (m m1 r : AccessInfo)
    (hne : chunk ≠ [])
    (hfield : unmarshalField s (chunk ++ rest) m = some (m1, rest))
    (hrest : ∀ fuel, rest.length ≤ fuel → unmarshalLoop s fuel rest m1 = some r) :
    ∀ fuel, (chunk ++ rest).length ≤ fuel → unmarshalLoop s fuel (chunk ++ rest) m = some r := by
  intro fuel hfuel
  obtain ⟨b, tl, hc⟩ := List.exists_cons_of_ne_nil hne
  have hlen : rest.length + 1 ≤ fuel := by
    have : 1 ≤ chunk.length := by rw [hc]; simp
    rw [List.length_append] at hfuel
    omega
  obtain ⟨g, rfl⟩ : ∃ g, fuel = g + 1 := ⟨fuel - 1, by omega⟩
  have hcons : chunk ++ rest = b :: (tl ++ rest) := by rw [hc]; rfl
  rw [hcons] at hfield ⊢
  rw [unmarshalLoop, hfield]
  exact hrest g (by omega)

theorem unmarshalField_accessType (s : Schema) (hwf : s.WellFormed) (v : Nat)
    (rest : List Nat) (m : AccessInfo) (hv : v < 2 ^ 64) :
    unmarshalField s (appendTag s.accessType 0 ++ appendVarint v ++ rest) m =
      some ({ m with AccessType := wireToInt32 v }, rest) := by
  obtain ⟨h1, h2, h3, h4, h5, h6⟩ := hwf
  have hn0 : s.accessType ≠ 0 := by omega
  unfold unmarshalField
  rw [List.append_assoc, consumeVarint_tag _ _ _ (by omega) (by norm_num)]
  simp [tag_num, tag_wireType, hn0, consumeVarint_appendVarint _ _ hv]

theorem unmarshalField_filePath (s : Schema) (hwf : s.WellFormed) (v : GoString)
    (rest : List Nat) (m : AccessInfo) (hv : v.length < 2 ^ 64) (hutf : utf8Valid v = true) :
    unmarshalField s (appendTag s.filePath 2 ++ appendVarint v.length ++ v ++ rest) m =
      some ({ m with FilePath := v }, rest) := by
  obtain ⟨h1, h2, h3, h4, h5, h6⟩ := hwf
  have hn0 : s.filePath ≠ 0 := by omega
  unfold unmarshalField
  rw [List.append_assoc, List.append_assoc, consumeVarint_tag _ _ _ (by omega) (by norm_num)]
  simp [tag_num, tag_wireType, hn0, consumeBytes_append _ _ hv, hutf]

theorem unmarshalField_fileSize (s : Schema) (hwf : s.WellFormed) (v : Nat)
    (rest : List Nat) (m : AccessInfo) (hv : v < 2 ^ 64) :
    unmarshalField s (appendTag s.fileSize 0 ++ appendVarint v ++ rest) m =
      some ({ m with FileSize := v }, rest) := by
  obtain ⟨h1, h2, h3, h4, h5, h6⟩ := hwf
  have hn0 : s.fileSize ≠ 0 := by omega
  have hn1 : s.fileSize ≠ s.accessType := by omega
  unfold unmarshalField
  rw [List.append_assoc, consumeVarint_tag _ _ _ (by omega) (by norm_num)]
  simp [tag_num, tag_wireType, hn0, hn1, consumeVarint_appendVarint _ _ hv]

theorem unmarshalField_processName (s : Schema) (hwf : s.WellFormed) (v : GoString)
    (rest : List Nat) (m : AccessInfo) (hv : v.length < 2 ^ 64) (hutf : utf8Valid v = true) :
    unmarshalField s (appendTag s.processName 2 ++ appendVarint v.length ++ v ++ rest) m =
      some ({ m with ProcessName := v }, rest) := by
  obtain ⟨h1, h2, h3, h4, h5, h6⟩ := hwf
  have hn0 : s.processName ≠ 0 := by omega
  have hn2 : s.processName ≠ s.filePath := by omega
  unfold unmarshalField
  rw [List.append_assoc, List.append_assoc, consumeVarint_tag _ _ _ (by omega) (by norm_num)]
  simp [tag_num, tag_wireType, hn0, hn2, consumeBytes_append _ _ hv, hutf]

theorem unmarshalField_processId (s : Schema) (hwf : s.WellFormed) (v : Nat)
    (rest : List Nat) (m : AccessInfo) (hv : v < 2 ^ 32) :
    unmarshalField s (appendTag s.processId 0 ++ appendVarint v ++ rest) m =
      some ({ m with ProcessId := v }, rest) := by
  obtain ⟨h1, h2, h3, h4, h5, h6⟩ := hwf
  have hn0 : s.processId ≠ 0 := by omega
  have hn1 : s.processId ≠ s.accessType := by omega
  have hn3 : s.processId ≠ s.fileSize := by omega
  have hv64 : v < 2 ^ 64 := by omega
  unfold unmarshalField
  rw [List.append_assoc, consumeVarint_tag _ _ _ (by omega) (by norm_num)]
  have hmod : v % 4294967296 = v := by omega
  simp [tag_num, tag_wireType, hn0, hn1, hn3, consumeVarint_appendVarint _ _ hv64, hmod]

/-- The field loop over a varint field that may be omitted. -/
theorem unmarshalLoop_varintField (s : Schema) (num v : Nat) (rest : List Nat)
    (m m1 r : AccessInfo) (hzero : v = 0 → m1 = m)
    (hfield : v ≠ 0 →
      unmarshalField s (appendTag num 0 ++ appendVarint v ++ rest) m = some (m1, rest))
    (hrest : ∀ fuel, rest.length ≤ fuel → unmarshalLoop s fuel rest m1 = some r) :
    ∀ fuel, (appendVarintField num v ++ rest).length ≤ fuel →
      unmarshalLoop s fuel (appendVarintField num v ++ rest) m = some r := by
  unfold appendVarintField
  by_cases hv : v = 0
  · rw [← hzero hv]
    simpa [hv] using hrest
  · simp only [hv, if_false]
    exact unmarshalLoop_chunk s _ rest m m1 r (by simp [appendVarint_ne_nil]) (hfield hv) hrest

/-- The field loop over a string field that may be omitted. -/
theorem unmarshalLoop_stringField (s : Schema) (num : Nat) (v : GoString) (rest : List Nat)
    (m m1 r : AccessInfo) (hzero : v = [] → m1 = m)
    (hfield : v ≠ [] →
      unmarshalField s (appendTag num 2 ++ appendVarint v.length ++ v ++ rest) m =
        some (m1, rest))
    (hrest : ∀ fuel, rest.length ≤ fuel → unmarshalLoop s fuel rest m1 = some r) :
    ∀ fuel, (appendStringField num v ++ rest).length ≤ fuel →
      unmarshalLoop s fuel (appendStringField num v ++ rest) m = some r := by
  unfold appendStringField
  by_cases hv : v = []
  · rw [← hzero hv]
    simpa [hv] using hrest
  · simp only [hv, if_false]
    exact unmarshalLoop_chunk s _ rest m m1 r (by simp [appendVarint_ne_nil]) (hfield hv) hrest

/-- Decoding undoes encoding for every record within the ranges of its Go
types: `int32` enum, `uint64` size, `uint32` process id, string lengths that
fit a Go `int`. -/
theorem Unmarshal_Marshal (s : Schema) (hwf : s.WellFormed) (m : AccessInfo) (out : List Nat)
    (hlo : -2 ^ 31 ≤ m.AccessType) (hhi : m.AccessType < 2 ^ 31)
    (hpath : m.FilePath.length < 2 ^ 63) (hsize : m.FileSize < 2 ^ 64)
    (hname : m.ProcessName.length < 2 ^ 63) (hpid : m.ProcessId < 2 ^ 32)
    (hm : Marshal s m = .ok out) :
    Unmarshal s out = some m := by
  obtain ⟨a, p, z, n, i⟩ := m
  simp only at hlo hhi hpath hsize hname hpid
  unfold Marshal at hm
  simp only at hm
  cases hv1 : utf8Valid p
  · simp [hv1] at hm
  cases hv2 : utf8Valid n
  · simp [hv1, hv2] at hm
  simp only [hv1, hv2, Bool.true_eq_false, if_false, Except.ok.injEq] at hm
  have hout : out = appendVarintField s.accessType (enumToWire a)
      ++ (appendStringField s.filePath p
      ++ (appendVarintField s.fileSize z
      ++ (appendStringField s.processName n
      ++ (appendVarintField s.processId i ++ [])))) := by
    rw [← hm]; simp
  unfold Unmarshal
  rw [hout]
  refine unmarshalLoop_varintField s _ _ _ AccessInfo.zero ⟨a, [], 0, [], 0⟩ ⟨a, p, z, n, i⟩
    ?_ ?_ ?_ _ (le_refl _)
  · intro h0
    rw [(enumToWire_eq_zero _ hlo hhi).mp h0]
    rfl
  · intro _
    rw [unmarshalField_accessType s hwf _ _ _ (enumToWire_lt _),
      wireToInt32_enumToWire _ hlo hhi]
    rfl
  refine unmarshalLoop_stringField s _ _ _ _ ⟨a, p, 0, [], 0⟩ ⟨a, p, z, n, i⟩ ?_ ?_ ?_
  · intro h0
    rw [h0]
  · intro _
    rw [unmarshalField_filePath s hwf _ _ _ (by omega) hv1]
  refine unmarshalLoop_varintField s _ _ _ _ ⟨a, p, z, [], 0⟩ ⟨a, p, z, n, i⟩ ?_ ?_ ?_
  · intro h0
    rw [h0]
  · intro _
    rw [unmarshalField_fileSize s hwf _ _ _ hsize]
  refine unmarshalLoop_stringField s _ _ _ _ ⟨a, p, z, n, 0⟩ ⟨a, p, z, n, i⟩ ?_ ?_ ?_
  · intro h0
    rw [h0]
  · intro _
    rw [unmarshalField_processName s hwf _ _ _ (by omega) hv2]
  refine unmarshalLoop_varintField s _ _ _ _ ⟨a, p, z, n, i⟩ ⟨a, p, z, n, i⟩ ?_ ?_ ?_
  · intro h0
    rw [h0]
  · intro _
    rw [unmarshalField_processId s hwf _ _ _ hpid]
  · intro fuel _
    exact unmarshalLoop_nil s fuel _

/-! ## The claims on the control flow of `SendLog` -/

/-- C1: with a non-empty server, a serialization that succeeds and a dial that
succeeds, the call marshals exactly one record, whose fields are the inputs
unchanged and the process name obtained for the process id (the resolved name,
or the label made from the id when resolution failed), and it issues exactly
one write, of the whole serialization of that record. -/
theorem SendLog_writes_serialized_record (env : Env) (server : GoString) (accessType : Int)
    (filePath : GoString) (fileSize processId : Nat) (out : List Nat) (conn : Conn)
    (hs : server ≠ [])
    (hm : Marshal env.schema ⟨accessType, filePath, fileSize, processNameOf env processId,
      processId⟩ = .ok out)
    (hd : env.dial (ascii "tcp") server = .ok conn) :
    (SendLog env server accessType filePath fileSize processId).filter isMarshal =
      [.marshal ⟨accessType, filePath, fileSize, processNameOf env processId, processId⟩] ∧
    (SendLog env server accessType filePath fileSize processId).filter isWrite = [.write out] ∧
    (∀ name, pidToName env processId = .ok name → processNameOf env processId = name) ∧
    (∀ err, pidToName env processId = .error err →
      processNameOf env processId = ascii "PID " ++ fmtDecimal processId) := by
  have hq := resolveEvents_quiet env processId
  have h1 := resolveEvents_filter env processId isMarshal (fun e he => (hq e he).2.1)
  have h2 := resolveEvents_filter env processId isWrite (fun e he => (hq e he).2.2.2.1)
  refine ⟨?_, ?_, ?_, ?_⟩
  · unfold SendLog
    simp only [hs, if_false, hm, hd]
    split <;> simp [List.filter_cons, h1, isMarshal]
  · unfold SendLog
    simp only [hs, if_false, hm, hd]
    split <;> simp [List.filter_cons, h2, isWrite]
  · intro name h; simp [processNameOf, h]
  · intro err h; simp [processNameOf, h]

/-- C3: with the empty server the trace is the name resolution followed by the
access log line and nothing else: no marshal, no dial, no write, no close, no
warning of the serialization, connection or write stage; the access log line is
there. -/
theorem SendLog_empty_server (env : Env) (accessType : Int) (filePath : GoString)
    (fileSize processId : Nat) :
    (∀ e ∈ SendLog env [] accessType filePath fileSize processId,
      isNet e = false ∧ isMarshal e = false ∧ isStageWarning e = false) ∧
    Event.warning (.accessLog [] accessType filePath fileSize (processNameOf env processId)) ∈
      SendLog env [] accessType filePath fileSize processId := by
  have hq := resolveEvents_quiet env processId
  constructor
  · intro e he
    simp only [SendLog, if_true, List.mem_append, List.mem_singleton] at he
    rcases he with he | rfl
    · have := hq e he
      simp [isNet, this]
    · simp [isNet, isDial, isWrite, isClose, isMarshal, isStageWarning]
  · simp [SendLog]

/-- C4: whatever the inputs and the outcomes of resolution, serialization, dial
and write, the trace holds exactly one access log line, a warning that carries
server, access type, file path, file size and the process name in use, and
nothing of the network (dial, write, close) comes before it. -/
theorem SendLog_access_log_once (env : Env) (server : GoString) (accessType : Int)
    (filePath : GoString) (fileSize processId : Nat) :
    (SendLog env server accessType filePath fileSize processId).filter isAccessLog =
      [.warning (.accessLog server accessType filePath fileSize (processNameOf env processId))] ∧
    ∃ pre post, SendLog env server accessType filePath fileSize processId =
      pre ++ .warning (.accessLog server accessType filePath fileSize
        (processNameOf env processId)) :: post ∧
      ∀ e ∈ pre, isNet e = false := by
  obtain ⟨tail, ht, hno⟩ := SendLog_head env server accessType filePath fileSize processId
  have hq := resolveEvents_quiet env processId
  constructor
  · rw [ht, List.filter_append,
      resolveEvents_filter env processId isAccessLog (fun e he => (hq e he).1)]
    have : tail.filter isAccessLog = [] := by
      rw [List.filter_eq_nil_iff]; intro e he; simp [hno e he]
    simp [List.filter_cons, isAccessLog, this]
  · refine ⟨_, tail, ht, ?_⟩
    intro e he
    have := hq e he
    simp [isNet, this]

/-- C5: with a non-empty server and a record that serializes, a dial that fails
is the only dial of the call, the connection warning with the server and the
error is logged, and there is neither a write nor a close. -/
theorem SendLog_connect_failure (env : Env) (server : GoString) (accessType : Int)
    (filePath : GoString) (fileSize processId : Nat) (out : List Nat) (err : GoError)
    (hs : server ≠ [])
    (hm : Marshal env.schema ⟨accessType, filePath, fileSize, processNameOf env processId,
      processId⟩ = .ok out)
    (hd : env.dial (ascii "tcp") server = .error err) :
    (SendLog env server accessType filePath fileSize processId).filter isDial =
      [.dial (ascii "tcp") server] ∧
    Event.warning (.connectError server err) ∈
      SendLog env server accessType filePath fileSize processId ∧
    (∀ e ∈ SendLog env server accessType filePath fileSize processId,
      isWrite e = false ∧ isClose e = false) := by
  have hq := resolveEvents_quiet env processId
  have h1 := resolveEvents_filter env processId isDial (fun e he => (hq e he).2.2.1)
  refine ⟨?_, ?_, ?_⟩
  · unfold SendLog
    simp only [hs, if_false, hm, hd]
    simp [List.filter_cons, h1, isDial]
  · unfold SendLog
    simp only [hs, if_false, hm, hd]
    simp
  · intro e he
    unfold SendLog at he
    simp only [hs, if_false, hm, hd] at he
    simp only [List.mem_append, List.mem_cons, List.mem_singleton, List.not_mem_nil,
      or_false] at he
    rcases he with (he | rfl) | rfl | rfl | rfl
    · exact ⟨(hq e he).2.2.2.1, (hq e he).2.2.2.2.1⟩
    all_goals simp [isWrite, isClose]

/-- C6: when the write step is reached and the write returns an error or a
byte count below the payload length, the send warning is logged and the write
stays the only one.  A count below the length comes with an error: that is the
contract of `io.Writer`, which `net.Conn` implements. -/
theorem SendLog_write_failure (env : Env) (server : GoString) (accessType : Int)
    (filePath : GoString) (fileSize processId : Nat) (out : List Nat) (conn : Conn)
    (hs : server ≠ [])
    (hm : Marshal env.schema ⟨accessType, filePath, fileSize, processNameOf env processId,
      processId⟩ = .ok out)
    (hd : env.dial (ascii "tcp") server = .ok conn)
    (hcontract : (conn.write out).n < out.length → (conn.write out).err ≠ none)
    (hfail : (conn.write out).err ≠ none ∨ (conn.write out).n < out.length) :
    (∃ err, (conn.write out).err = some err ∧ Event.warning (.sendError err) ∈
      SendLog env server accessType filePath fileSize processId) ∧
    (SendLog env server accessType filePath fileSize processId).filter isWrite =
      [.write out] := by
  have hq := resolveEvents_quiet env processId
  have h2 := resolveEvents_filter env processId isWrite (fun e he => (hq e he).2.2.2.1)
  have herr : (conn.write out).err ≠ none := hfail.elim id hcontract
  obtain ⟨err, he⟩ := Option.ne_none_iff_exists'.mp herr
  refine ⟨⟨err, he, ?_⟩, ?_⟩
  · unfold SendLog
    simp only [hs, if_false, hm, hd, he]
    simp
  · unfold SendLog
    simp only [hs, if_false, hm, hd, he]
    simp [List.filter_cons, h2, isWrite]

/-- C7: when the connection was opened, the trace ends with the one close of
the call and the write comes before it, whether the write succeeded or not;
when no connection was opened (empty server, failed serialization, failed
dial) the trace holds no close. -/
theorem SendLog_close_discipline (env : Env) (server : GoString) (accessType : Int)
    (filePath : GoString) (fileSize processId : Nat) :
    (∀ out conn, server ≠ [] →
      Marshal env.schema ⟨accessType, filePath, fileSize, processNameOf env processId,
        processId⟩ = .ok out →
      env.dial (ascii "tcp") server = .ok conn →
      ∃ pre mid, SendLog env server accessType filePath fileSize processId =
          pre ++ .write out :: mid ++ [.close] ∧
        ∀ e ∈ pre ++ .write out :: mid, isClose e = false) ∧
    ((server = [] ∨
      (∃ err, Marshal env.schema ⟨accessType, filePath, fileSize, processNameOf env processId,
        processId⟩ = .error err) ∨
      (∃ err, env.dial (ascii "tcp") server = .error err)) →
      ∀ e ∈ SendLog env server accessType filePath fileSize processId, isClose e = false) := by
  have hq := resolveEvents_quiet env processId
  constructor
  · intro out conn hs hm hd
    unfold SendLog
    simp only [hs, if_false, hm, hd]
    split
    · rename_i err _
      refine ⟨resolveEvents env processId ++ [.warning (.accessLog server accessType filePath
        fileSize (processNameOf env processId)),
        .marshal ⟨accessType, filePath, fileSize, processNameOf env processId, processId⟩,
        .dial (ascii "tcp") server],
        [.warning (.sendError err)], by simp, ?_⟩
      intro e he
      simp only [List.mem_append, List.mem_cons, List.mem_singleton, List.not_mem_nil,
        or_false] at he
      rcases he with (he | rfl | rfl | rfl) | rfl | rfl
      · exact (hq e he).2.2.2.2.1
      all_goals simp [isClose]
    · refine ⟨resolveEvents env processId ++ [.warning (.accessLog server accessType filePath
        fileSize (processNameOf env processId)),
        .marshal ⟨accessType, filePath, fileSize, processNameOf env processId, processId⟩,
        .dial (ascii "tcp") server],
        [], by simp, ?_⟩
      intro e he
      simp only [List.mem_append, List.mem_cons, List.mem_singleton, List.not_mem_nil,
        or_false] at he
      rcases he with (he | rfl | rfl | rfl) | rfl
      · exact (hq e he).2.2.2.2.1
      all_goals simp [isClose]
  · intro h e he
    unfold SendLog at he
    by_cases hs : server = []
    · simp only [hs, if_true, List.mem_append, List.mem_singleton] at he
      rcases he with he | rfl
      · exact (hq e he).2.2.2.2.1
      · simp [isClose]
    · simp only [hs, if_false] at he
      rcases h with h | ⟨err, h⟩ | ⟨err, h⟩
      · exact absurd h hs
      · simp only [h, List.mem_append, List.mem_cons, List.mem_singleton, List.not_mem_nil,
          or_false] at he
        rcases he with (he | rfl) | rfl | rfl
        · exact (hq e he).2.2.2.2.1
        all_goals simp [isClose]
      · split at he
        · simp only [List.mem_append, List.mem_cons, List.mem_singleton, List.not_mem_nil,
            or_false] at he
          rcases he with (he | rfl) | rfl | rfl
          · exact (hq e he).2.2.2.2.1
          all_goals simp [isClose]
        · simp only [h, List.mem_append, List.mem_cons, List.mem_singleton, List.not_mem_nil,
            or_false] at he
          rcases he with (he | rfl) | rfl | rfl | rfl
          · exact (hq e he).2.2.2.2.1
          all_goals simp [isClose]

/-- C10: with a non-empty server and a record whose serialization fails, the
serialization warning with that error is logged and the trace holds no dial,
no write and no close. -/
theorem SendLog_marshal_failure (env : Env) (server : GoString) (accessType : Int)
    (filePath : GoString) (fileSize processId : Nat) (err : GoError)
    (hs : server ≠ [])
    (hm : Marshal env.schema ⟨accessType, filePath, fileSize, processNameOf env processId,
      processId⟩ = .error err) :
    Event.warning (.marshalError err) ∈
      SendLog env server accessType filePath fileSize processId ∧
    (∀ e ∈ SendLog env server accessType filePath fileSize processId, isNet e = false) := by
  have hq := resolveEvents_quiet env processId
  constructor
  · unfold SendLog
    simp only [hs, if_false, hm]
    simp
  · intro e he
    unfold SendLog at he
    simp only [hs, if_false, hm] at he
    simp only [List.mem_append, List.mem_cons, List.mem_singleton, List.not_mem_nil,
      or_false] at he
    rcases he with (he | rfl) | rfl | rfl
    · have := hq e he
      simp [isNet, this]
    all_goals simp [isNet, isDial, isWrite, isClose]

/-- The sample call of C1: the process exists, the collector accepts; the one
write carries the nineteen bytes of the record. -/
theorem SendLog_writes_serialized_record_witness :
    (SendLog Env.reachable (ascii "127.0.0.1:9999") 1 (ascii "/a") 4096 1234).filter isWrite =
      [.write [8, 1, 18, 2, 47, 97, 24, 128, 32, 34, 5, 98, 97, 115, 104, 10, 40, 210, 9]] :=
  (SendLog_writes_serialized_record Env.reachable (ascii "127.0.0.1:9999") 1 (ascii "/a") 4096
    1234 [8, 1, 18, 2, 47, 97, 24, 128, 32, 34, 5, 98, 97, 115, 104, 10, 40, 210, 9] Conn.good
    (by decide) (by decide) rfl).2.1

/-- The sample call of C5: the collector refuses the connection. -/
theorem SendLog_connect_failure_witness :
    Event.warning (.connectError (ascii "127.0.0.1:9999") ⟨"dial tcp: connection refused"⟩) ∈
      SendLog Env.refused (ascii "127.0.0.1:9999") 1 (ascii "/data/vol1/x.dat") 4096 1234 :=
  (SendLog_connect_failure Env.refused (ascii "127.0.0.1:9999") 1 (ascii "/data/vol1/x.dat")
    4096 1234
    [8, 1, 18, 16, 47, 100, 97, 116, 97, 47, 118, 111, 108, 49, 47, 120, 46, 100, 97, 116, 24,
      128, 32, 34, 8, 80, 73, 68, 32, 49, 50, 51, 52, 40, 210, 9]
    ⟨"dial tcp: connection refused"⟩ (by decide) (by decide) rfl).2.1

/-- The sample call of C6: the connection breaks after three bytes of the
write. -/
theorem SendLog_write_failure_witness :
    (SendLog Env.dropping (ascii "c:9") 0 [] 0 7).filter isWrite =
      [.write [34, 5, 80, 73, 68, 32, 55, 40, 7]] :=
  (SendLog_write_failure Env.dropping (ascii "c:9") 0 [] 0 7
    [34, 5, 80, 73, 68, 32, 55, 40, 7] (Conn.broken 3) (by decide) (by decide) rfl
    (by decide) (Or.inr (by decide))).2

/-- The sample call of C7: the connection is opened, written to and closed. -/
theorem SendLog_close_discipline_witness :
    ∃ pre mid, SendLog Env.reachable (ascii "c:9") 0 [] 0 0 =
        pre ++ .write [34, 5, 98, 97, 115, 104, 10] :: mid ++ [.close] ∧
      ∀ e ∈ pre ++ .write [34, 5, 98, 97, 115, 104, 10] :: mid, isClose e = false :=
  (SendLog_close_discipline Env.reachable (ascii "c:9") 0 [] 0 0).1
    [34, 5, 98, 97, 115, 104, 10] Conn.good (by decide) (by decide) rfl

/-- The sample call of C10: the file path is the single byte 0xFF, which is not
UTF-8. -/
theorem SendLog_marshal_failure_witness :
    Event.warning (.marshalError errInvalidUTF8) ∈
      SendLog Env.reachable (ascii "c:9") 1 [255] 4096 1234 :=
  (SendLog_marshal_failure Env.reachable (ascii "c:9") 1 [255] 4096 1234 errInvalidUTF8
    (by decide) (by decide)).1

/-- C2: when the lookup of the process name fails for a 32-bit process id, the
name in use is `PID ` followed by the decimal text of the id (ASCII digits
only, value equal to the id, no leading zero, nothing after), and that very
name stands in the access log line and in the record handed to the
serializer. -/
theorem SendLog_synthesized_name (env : Env) (server : GoString) (accessType : Int)
    (filePath : GoString) (fileSize processId : Nat) (err : GoError)
    (hpid : processId < 2 ^ 32)
    (hfail : pidToName env processId = .error err) :
    ∃ digits : List Nat,
      processNameOf env processId = [80, 73, 68, 32] ++ digits ∧
      digits ≠ [] ∧ (∀ d ∈ digits, 48 ≤ d ∧ d ≤ 57) ∧ decimalValue digits = processId ∧
      (digits.head? = some 48 → digits = [48]) ∧
      Event.warning (.accessLog server accessType filePath fileSize ([80, 73, 68, 32] ++ digits))
        ∈ SendLog env server accessType filePath fileSize processId ∧
      (server ≠ [] →
        Event.marshal ⟨accessType, filePath, fileSize, [80, 73, 68, 32] ++ digits, processId⟩
          ∈ SendLog env server accessType filePath fileSize processId) := by
  have hname : processNameOf env processId = [80, 73, 68, 32] ++ fmtDecimal processId := by
    simp only [processNameOf, hfail]
    rfl
  obtain ⟨h1, h2, h3, h4⟩ := fmtDecimal_spec processId (lt_trans hpid (by norm_num))
  refine ⟨fmtDecimal processId, hname, h1, h2, h3, h4, ?_, ?_⟩
  · obtain ⟨tail, ht, _⟩ := SendLog_head env server accessType filePath fileSize processId
    rw [ht, hname]
    simp
  · intro hs
    rw [← hname]
    unfold SendLog
    simp only [hs, if_false]
    split
    · simp
    · split
      · simp
      · split <;> simp

/-- The sample call of C2: process 1234 is gone, its name becomes `PID 1234`. -/
theorem SendLog_synthesized_name_witness :
    ∃ digits : List Nat,
      processNameOf Env.refused 1234 = [80, 73, 68, 32] ++ digits ∧
      digits ≠ [] ∧ (∀ d ∈ digits, 48 ≤ d ∧ d ≤ 57) ∧ decimalValue digits = 1234 ∧
      (digits.head? = some 48 → digits = [48]) ∧
      Event.warning (.accessLog (ascii "c:9") 1 (ascii "/a") 4096 ([80, 73, 68, 32] ++ digits))
        ∈ SendLog Env.refused (ascii "c:9") 1 (ascii "/a") 4096 1234 ∧
      (ascii "c:9" ≠ [] →
        Event.marshal ⟨1, ascii "/a", 4096, [80, 73, 68, 32] ++ digits, 1234⟩
          ∈ SendLog Env.refused (ascii "c:9") 1 (ascii "/a") 4096 1234) :=
  SendLog_synthesized_name Env.refused (ascii "c:9") 1 (ascii "/a") 4096 1234
    ⟨"open: no such file or directory"⟩ (by decide) (by decide)

/-- C8: for a process whose metadata reads `bash` and a line feed, `pidToName`
returns the five bytes with the line feed, not the trimmed name `bash`, and
`SendLog` puts the untrimmed name in the access log line and in the record. -/
theorem pidToName_keeps_line_feed :
    Env.reachable.readFile (procPath 1234) = .ok [98, 97, 115, 104, 10] ∧
    trimSpace [98, 97, 115, 104, 10] = [98, 97, 115, 104] ∧
    pidToName Env.reachable 1234 = .ok [98, 97, 115, 104, 10] ∧
    pidToName Env.reachable 1234 ≠ .ok (trimSpace [98, 97, 115, 104, 10]) ∧
    SendLog Env.reachable [] 1 (ascii "/a") 4096 1234 =
      [.readFile (ascii "/proc/1234/comm"),
        .warning (.accessLog [] 1 (ascii "/a") 4096 [98, 97, 115, 104, 10])] ∧
    Event.marshal ⟨1, ascii "/a", 4096, [98, 97, 115, 104, 10], 1234⟩ ∈
      SendLog Env.reachable (ascii "c:9") 1 (ascii "/a") 4096 1234 := by
  decide

/-- C9: for every record within the ranges of its Go types that `SendLog`
builds, serializes and writes, decoding the written bytes with the same schema
gives back that record, field by field; fields at their zero values, which the
encoding leaves out, are included. -/
theorem SendLog_round_trip (env : Env) (server : GoString) (accessType : Int)
    (filePath : GoString) (fileSize processId : Nat) (out : List Nat) (conn : Conn)
    (hwf : env.schema.WellFormed)
    (hlo : -2 ^ 31 ≤ accessType) (hhi : accessType < 2 ^ 31)
    (hpath : filePath.length < 2 ^ 63) (hsize : fileSize < 2 ^ 64)
    (hname : (processNameOf env processId).length < 2 ^ 63) (hpid : processId < 2 ^ 32)
    (hs : server ≠ [])
    (hm : Marshal env.schema ⟨accessType, filePath, fileSize, processNameOf env processId,
      processId⟩ = .ok out)
    (hd : env.dial (ascii "tcp") server = .ok conn) :
    Event.write out ∈ SendLog env server accessType filePath fileSize processId ∧
    Unmarshal env.schema out =
      some ⟨accessType, filePath, fileSize, processNameOf env processId, processId⟩ := by
  constructor
  · unfold SendLog
    simp only [hs, if_false, hm, hd]
    split <;> simp
  · exact Unmarshal_Marshal env.schema hwf _ out hlo hhi hpath hsize hname hpid hm

/-- The sample call of C9: access type 0, empty path, size 0 and process id 0;
only the process name goes on the wire and the decoded record has the zero
values back. -/
theorem SendLog_round_trip_witness :
    Event.write [34, 5, 98, 97, 115, 104, 10] ∈ SendLog Env.reachable (ascii "c:9") 0 [] 0 0 ∧
    Unmarshal Env.reachable.schema [34, 5, 98, 97, 115, 104, 10] =
      some ⟨0, [], 0, processNameOf Env.reachable 0, 0⟩ :=
  SendLog_round_trip Env.reachable (ascii "c:9") 0 [] 0 0 [34, 5, 98, 97, 115, 104, 10]
    Conn.good (by decide) (by decide) (by decide) (by decide) (by decide) (by decide)
    (by decide) (by decide) (by decide) rfl

end LogAccess
